import Mathlib

/-!
Verification of the ROHF SCF solver (`src/lib/libscf_solver/rohf.cc`) and the
ECP basis-set assembly (`src/psi4/libmints/ecp.cc`) against their
natural-language specification.  Matrices are shallowly embedded as rational
valued functions; the irrep-blocked matrices of the linear-algebra provider
become a `BlockMat` structure carrying per-irrep dimensions.  The file first
gives all definitions (translated from the C++ sources), then the theorems.
-/

set_option maxHeartbeats 1000000

namespace Psi4

/-- A single irrep block of a dense matrix, as stored by the external
linear-algebra provider: entries indexed by row and column.  Out-of-range
indices are junk (never read by the embedded loops). -/
abbrev Mat := ℕ → ℕ → ℚ

/-- Matrix::set on one block: overwrite entry (i, j) with v. -/
def mset (M : Mat) (i j : ℕ) (v : ℚ) : Mat :=
  fun a b => if a = i ∧ b = j then v else M a b

/-- Matrix::copy: the destination is replaced wholesale by the source. -/
def matCopy (_dest src : Mat) : Mat := src

/-- Matrix::add, elementwise. -/
def matAdd (A B : Mat) : Mat := fun i j => A i j + B i j

/-- Matrix::scale by a scalar. -/
def matScale (c : ℚ) (A : Mat) : Mat := fun i j => c * A i j

namespace ROHF

/-! ROHF::form_D (rohf.cc lines 319-344).  For each irrep block h and each
entry (i, j), the code accumulates `val` over the doubly occupied columns of
Ca, stores it into Db, keeps accumulating over the singly occupied columns and
stores the result into Da; finally `Dt_->copy(Da_); Dt_->copy(Db_);`. -/

/-- Inner accumulation loop of form_D: starting from `v0`, add
`C i m * C j m` for each `m` in the index list. -/
def form_D_val (C : Mat) (i j : ℕ) (ms : List ℕ) (v0 : ℚ) : ℚ :=
  ms.foldl (fun v m => v + C i m * C j m) v0

/-- Beta density of one irrep block produced by ROHF::form_D: the first
accumulation loop, over `m = 0 .. docc-1`. -/
def form_D_Db (C : Mat) (docc : ℕ) : Mat :=
  fun i j => form_D_val C i j (List.range docc) 0

/-- Alpha density of one irrep block produced by ROHF::form_D: continues the
same accumulator over `m = docc .. docc+socc-1`. -/
def form_D_Da (C : Mat) (docc socc : ℕ) : Mat :=
  fun i j => form_D_val C i j (List.range' docc socc) (form_D_Db C docc i j)

/-- Total density left behind by ROHF::form_D: the code executes
`Dt_->copy(Da_)` and then `Dt_->copy(Db_)` (two wholesale copies in
sequence). -/
def form_D_Dt (Dt0 : Mat) (C : Mat) (docc socc : ℕ) : Mat :=
  matCopy (matCopy Dt0 (form_D_Da C docc socc)) (form_D_Db C docc)

/-! ROHF::form_F, effective-Fock assembly (rohf.cc lines 241-296), one irrep
block.  `Feff` is first set to `0.5*(moFa+moFb)`; then for each open orbital
`i` the open/closed entries `(i,j)` and `(j,i)` are overwritten with
`moFb(i,j)` and the open/virtual entries with `moFa(i,j)`. -/

/-- One body of the inner loops of form_F: `val = src->get(h,i,j);
Feff->set(h,i,j,val); Feff->set(h,j,i,val);`. -/
def formF_setPair (src : Mat) (M : Mat) (i j : ℕ) : Mat :=
  mset (mset M i j (src i j)) j i (src i j)

/-- An inner loop of form_F: write the pair of entries for every `j` in the
given column-index list. -/
def formF_inner (src : Mat) (i : ℕ) (js : List ℕ) (M : Mat) : Mat :=
  js.foldl (fun A j => formF_setPair src A i j) M

/-- One iteration of the outer loop of form_F, for a single open orbital `i`:
first the open/closed writes (from moFb over `j = 0 .. docc-1`), then the
open/virtual writes (from moFa over `j = docc+socc .. nmo-1`). -/
def formF_step (moFa moFb : Mat) (docc socc nmo : ℕ) (M : Mat) (i : ℕ) : Mat :=
  formF_inner moFa i (List.range' (docc + socc) (nmo - (docc + socc)))
    (formF_inner moFb i (List.range docc) M)

/-- Effective Fock matrix produced by ROHF::form_F on one irrep block:
`Feff->copy(moFa); Feff->add(moFb); Feff->scale(0.5);` followed by the loop
over the open orbitals `i = docc .. docc+socc-1`. -/
def form_F (Feff0 moFa moFb : Mat) (docc socc nmo : ℕ) : Mat :=
  (List.range' docc socc).foldl (formF_step moFa moFb docc socc nmo)
    (matScale (1/2) (matAdd (matCopy Feff0 moFa) moFb))

end ROHF

/-! Irrep-blocked matrices, for the energy and convergence claims. -/

/-- An irrep-blocked square matrix: number of irreps, the dimension of each
irrep block, and the entries of each block. -/
structure BlockMat where
  nirrep : ℕ
  dim : ℕ → ℕ
  entry : ℕ → ℕ → ℕ → ℚ

/-- Modelled from the spec: the dense-matrix provider's Frobenius dot product
(`Matrix::vector_dot`), summing products of corresponding elements over all
matrix elements across all irreps.  The provider itself is an external
collaborator, not part of the repository sources. -/
def vector_dot (A B : BlockMat) : ℚ :=
  ∑ h ∈ Finset.range A.nirrep, ∑ i ∈ Finset.range (A.dim h),
    ∑ j ∈ Finset.range (A.dim h), A.entry h i j * B.entry h i j

/-- Elementwise difference of two irrep-blocked matrices
(`Matrix::subtract`), on the shape of the first operand. -/
def blockSub (A B : BlockMat) : BlockMat :=
  { nirrep := A.nirrep, dim := A.dim,
    entry := fun h i j => A.entry h i j - B.entry h i j }

/-- Sum of the squares of all elements of an irrep-blocked matrix. -/
def blockSumSq (A : BlockMat) : ℚ :=
  vector_dot A A

/-- Number of matrix elements of an irrep-blocked matrix. -/
def blockNumel (A : BlockMat) : ℕ :=
  ∑ h ∈ Finset.range A.nirrep, A.dim h * A.dim h

/-- Modelled from the spec: the dense-matrix provider's RMS norm
(`Matrix::rms`), the square root of the mean of the squared elements.  The
provider is an external collaborator, not part of the repository sources. -/
noncomputable def blockRms (A : BlockMat) : ℝ :=
  Real.sqrt ((blockSumSq A : ℝ) / (blockNumel A : ℝ))

/-- Matrix::copy at the block level: the (freshly constructed) destination is
replaced wholesale by the source. -/
def matCopyB (src : BlockMat) : BlockMat := src

namespace ROHF

/-- ROHF::compute_E (rohf.cc lines 351-359): DH accumulates the dot products
of both densities with the core Hamiltonian, DFa and DFb the density-Fock dot
products, and the total energy is the nuclear repulsion plus half their sum. -/
def compute_E (Da Db H Fa Fb : BlockMat) (nuclearrep : ℚ) : ℚ :=
  let DH := vector_dot Da H + vector_dot Db H
  let DFa := vector_dot Da Fa
  let DFb := vector_dot Db Fb
  let Eelec := (1/2) * (DH + DFa + DFb)
  nuclearrep + Eelec

/-- ROHF::save_density_and_energy (rohf.cc lines 98-102): copies the current
total density into `Dt_old_` and the current energy into `Eold_`. -/
def save_density_and_energy (Dt : BlockMat) (E : ℚ) : BlockMat × ℚ :=
  (matCopyB Dt, E)

/-- ROHF::test_convergency (rohf.cc lines 207-222): compute the energy
difference, copy `Dt_` into a scratch matrix, subtract `Dt_old_`, take the
RMS, and return true exactly when both the absolute energy difference is
below the energy threshold and the density RMS is below the density
threshold. -/
noncomputable def test_convergency (E Eold : ℚ) (Dt Dt_old : BlockMat)
    (energy_threshold density_threshold : ℚ) : Prop :=
  let ediff := E - Eold
  let D_rms := blockSub (matCopyB Dt) Dt_old
  let Drms := blockRms D_rms
  |(ediff : ℝ)| < (energy_threshold : ℝ) ∧ Drms < (density_threshold : ℝ)

end ROHF

/-! The ECP basis-set machinery of `src/psi4/libmints/ecp.cc`. -/

/-- A 3-component Cartesian center. -/
structure Vector3 where
  x : ℚ
  y : ℚ
  z : ℚ
deriving DecidableEq

/-- ECPShellInfo (ecp.cc lines 29-60 together with the base ShellInfo fields
it reads and compares): a shell descriptor with per-primitive radial powers
`n_` and sub-angular-momentum labels `sub_l_` in addition to the angular
momentum, purity flag, exponent and coefficient sequences, owning-atom index,
center, first-function index and function counts. -/
structure ECPShellInfo where
  l_ : ℤ
  puream_ : Bool
  exp_ : List ℚ
  coef_ : List ℚ
  original_coef_ : List ℚ
  erd_coef_ : List ℚ
  n_ : List ℤ
  sub_l_ : List ℤ
  nc_ : ℤ
  center_ : Vector3
  start_ : ℤ
  ncartesian_ : ℕ
  nfunction_ : ℕ
deriving DecidableEq

/-- Modelled from the spec: the number of primitives of a shell descriptor.
The base-class accessor is not in the repository; the spec's invariant makes
all per-primitive sequences the same length, so the exponent count serves. -/
def ECPShellInfo.nprimitive (s : ECPShellInfo) : ℕ := s.exp_.length

/-- Primitive exponent accessor. -/
def ECPShellInfo.exp (s : ECPShellInfo) (prim : ℕ) : ℚ := s.exp_.getD prim 0

/-- Primitive contraction-coefficient accessor. -/
def ECPShellInfo.coef (s : ECPShellInfo) (prim : ℕ) : ℚ := s.coef_.getD prim 0

/-- Primitive original-coefficient accessor. -/
def ECPShellInfo.original_coef (s : ECPShellInfo) (prim : ℕ) : ℚ :=
  s.original_coef_.getD prim 0

/-- Primitive radial-power accessor. -/
def ECPShellInfo.n (s : ECPShellInfo) (prim : ℕ) : ℤ := s.n_.getD prim 0

/-- Primitive sub-angular-momentum accessor. -/
def ECPShellInfo.subl (s : ECPShellInfo) (prim : ℕ) : ℤ := s.sub_l_.getD prim 0

/-- Angular momentum accessor. -/
def ECPShellInfo.am (s : ECPShellInfo) : ℤ := s.l_

/-- ECPShellInfo constructor (ecp.cc lines 30-33): stores `n` and `sub_l` and
forwards to the base ShellInfo constructor with GaussianType::Cartesian.
Modelled from the spec: the base constructor is not in the repository; per
the spec's data model a descriptor carries one coefficient sequence, so the
coefficient arrays are initialised from `c`, a Cartesian shell is not pure,
and the Cartesian/function counts use the standard (l+1)(l+2)/2 formula. -/
def mkECPShellInfo (am : ℤ) (c e : List ℚ) (n sub_l : List ℤ) (nc : ℤ)
    (center : Vector3) (start : ℤ) : ECPShellInfo :=
  { l_ := am, puream_ := false, exp_ := e, coef_ := c, original_coef_ := c,
    erd_coef_ := c, n_ := n, sub_l_ := sub_l, nc_ := nc, center_ := center,
    start_ := start,
    ncartesian_ := (((am + 1) * (am + 2)) / 2).toNat,
    nfunction_ := (((am + 1) * (am + 2)) / 2).toNat }

/-- ECPShellInfo::operator== (ecp.cc lines 47-60), transcribed conjunct by
conjunct; note that the fourth conjunct of the source compares the left
operand's `original_coef_` against the right operand's `erd_coef_`. -/
def ECPShellInfo.opEq (L RHS : ECPShellInfo) : Bool :=
  decide (L.l_ = RHS.l_) && decide (L.puream_ = RHS.puream_) &&
  decide (L.exp_ = RHS.exp_) && decide (L.original_coef_ = RHS.erd_coef_) &&
  decide (L.n_ = RHS.n_) && decide (L.sub_l_ = RHS.sub_l_) &&
  decide (L.nc_ = RHS.nc_) && decide (L.center_ = RHS.center_) &&
  decide (L.start_ = RHS.start_) && decide (L.ncartesian_ = RHS.ncartesian_) &&
  decide (L.nfunction_ = RHS.nfunction_)

/-- GaussianECPShell (ecp.cc lines 62-77): the assembled shell record, whose
per-primitive arrays point into the unique-primitive pool. -/
structure GaussianECPShell where
  l_ : ℤ
  nprimitive_ : ℕ
  original_coef_ : List ℚ
  exp_ : List ℚ
  n_ : List ℤ
  sub_l_ : List ℤ
deriving DecidableEq

/-- GaussianECPShell::evaluate (ecp.cc lines 69-77): loop over the
primitives, adding `pow(r, n_[i]) * original_coef_[i] * exp(-exp_[i] * r2)`
for exactly those `i` whose stored sub-angular-momentum label equals the
requested `l`. -/
noncomputable def GaussianECPShell.evaluate (s : GaussianECPShell) (r : ℝ) (l : ℤ) : ℝ :=
  (List.range s.nprimitive_).foldl
    (fun value i =>
      if s.sub_l_.getD i 0 = l then
        value + r ^ (s.n_.getD i 0) * ((s.original_coef_.getD i 0 : ℚ) : ℝ) *
          Real.exp (-((s.exp_.getD i 0 : ℚ) : ℝ) * (r * r))
      else value) 0

/-- The GaussianECPShell record that the basis-set assembly builds for a
given shell descriptor (ecp.cc lines 217-219): the descriptor's angular
momentum, primitive count and per-primitive arrays (which the constructor
stores contiguously in the unique-primitive pool). -/
def toGaussianECPShell (s : ECPShellInfo) : GaussianECPShell :=
  { l_ := s.l_, nprimitive_ := s.nprimitive, original_coef_ := s.original_coef_,
    exp_ := s.exp_, n_ := s.n_, sub_l_ := s.sub_l_ }

/-- The nested shell map `shell_map[basis][label]`, as an association
structure (std::map keys are unique; association-list lookup takes the most
recent insertion, matching map assignment semantics). -/
abbrev ShellMap := List (String × List (String × List ECPShellInfo))

/-- Lookup of `shell_map[basis][label]`; a missing key default-constructs an
empty shell vector, exactly as std::map operator[] does. -/
def lookupShells (sm : ShellMap) (basis label : String) : List ECPShellInfo :=
  ((((sm.lookup basis).getD []).lookup label).getD [])

/-- The unique-primitive pool accumulated by the first pass of the
ECPBasisSet constructor (ecp.cc lines 95-128), together with the
`primitive_start` / `primitive_end` index maps. -/
structure UPool where
  uexps : List ℚ
  ucoefs : List ℚ
  uoriginal_coefs : List ℚ
  uerd_coefs : List ℚ
  uns : List ℤ
  usubls : List ℤ
  n_uprimitive : ℕ
  primitive_start : List ((String × String) × ℕ)
  primitive_end : List ((String × String) × ℕ)

/-- Push all primitives of one shell into the unique-primitive pool
(ecp.cc lines 114-125); the ERD coefficients are pushed as 0. -/
def pushPrimitives (p : UPool) (shell : ECPShellInfo) : UPool :=
  (List.range shell.nprimitive).foldl
    (fun q prim =>
      { q with
        uexps := q.uexps ++ [shell.exp prim],
        ucoefs := q.ucoefs ++ [shell.coef prim],
        uoriginal_coefs := q.uoriginal_coefs ++ [shell.original_coef prim],
        uerd_coefs := q.uerd_coefs ++ [0],
        uns := q.uns ++ [shell.n prim],
        usubls := q.usubls ++ [shell.subl prim],
        n_uprimitive := q.n_uprimitive + 1 }) p

/-- Process one (basis, label) entry of the first pass: record the starting
pool index, push every primitive of every shell, record the end index. -/
def uniquifyLabel (p : UPool) (basis label : String)
    (shells : List ECPShellInfo) : UPool :=
  let p1 := { p with
    primitive_start := ((basis, label), p.n_uprimitive) :: p.primitive_start }
  let p2 := shells.foldl pushPrimitives p1
  { p2 with
    primitive_end := ((basis, label), p2.n_uprimitive) :: p2.primitive_end }

/-- First pass of the ECPBasisSet constructor (ecp.cc lines 95-128): walk the
whole shell map and store every primitive in the unique-primitive pool. -/
def uniquify (sm : ShellMap) : UPool :=
  sm.foldl
    (fun p entry => entry.2.foldl (fun q le => uniquifyLabel q entry.1 le.1 le.2) p)
    { uexps := [], ucoefs := [], uoriginal_coefs := [], uerd_coefs := [],
      uns := [], usubls := [], n_uprimitive := 0,
      primitive_start := [], primitive_end := [] }

/-- Lookup in the `primitive_start` / `primitive_end` maps; a missing key
default-constructs 0, as std::map operator[] does for int. -/
def lookupIdx (m : List ((String × String) × ℕ)) (basis label : String) : ℕ :=
  (m.lookup (basis, label)).getD 0

/-- Body of the per-atom shell loop (ecp.cc lines 204-229): accumulate the
consumed primitive count and construct the GaussianECPShell referencing the
pool slice starting at `ustart + atom_nprim`. -/
def buildAtomStep (pool : UPool) (ustart : ℕ)
    (acc : ℕ × List GaussianECPShell) (thisshell : ECPShellInfo) :
    ℕ × List GaussianECPShell :=
  let atom_nprim := acc.1
  let shell_nprim := thisshell.nprimitive
  let g : GaussianECPShell :=
    { l_ := thisshell.am, nprimitive_ := shell_nprim,
      original_coef_ := (pool.uoriginal_coefs.drop (ustart + atom_nprim)).take shell_nprim,
      exp_ := (pool.uexps.drop (ustart + atom_nprim)).take shell_nprim,
      n_ := (pool.uns.drop (ustart + atom_nprim)).take shell_nprim,
      sub_l_ := (pool.usubls.drop (ustart + atom_nprim)).take shell_nprim }
  (atom_nprim + shell_nprim, acc.2 ++ [g])

/-- The shell loop of one atom iteration of the second pass. -/
def buildAtomShells (pool : UPool) (ustart : ℕ)
    (shells : List ECPShellInfo) : ℕ × List GaussianECPShell :=
  shells.foldl (buildAtomStep pool ustart) (0, [])

/-- Second pass of the ECPBasisSet constructor (ecp.cc lines 193-238): for
each atom (given by its (basis, label) pair), build its shell records and
check that the consumed primitive count equals the precomputed range size
`uend - ustart`, throwing a fatal exception otherwise. -/
def assembleAtoms (sm : ShellMap) (pool : UPool) :
    List (String × String) → Except String (List GaussianECPShell)
  | [] => Except.ok []
  | atom :: rest =>
    if (((buildAtomShells pool (lookupIdx pool.primitive_start atom.1 atom.2)
          (lookupShells sm atom.1 atom.2)).1 : ℤ) ≠
        (lookupIdx pool.primitive_end atom.1 atom.2 : ℤ) -
          (lookupIdx pool.primitive_start atom.1 atom.2 : ℤ)) then
      Except.error "Problem with nprimitive in basis set construction!"
    else
      match assembleAtoms sm pool rest with
      | Except.ok tail =>
        Except.ok ((buildAtomShells pool (lookupIdx pool.primitive_start atom.1 atom.2)
          (lookupShells sm atom.1 atom.2)).2 ++ tail)
      | Except.error e => Except.error e

/-- The ECPBasisSet constructor (ecp.cc lines 80-239), restricted to the
parts the claims are about: the unique-primitive pass followed by the
per-atom assembly pass with its consistency check.  The count/allocation
pass and the auxiliary index tables do not affect the assembled shells or
the error behaviour and are omitted. -/
def ECPBasisSet_construct (sm : ShellMap) (atoms : List (String × String)) :
    Except String (List GaussianECPShell) :=
  assembleAtoms sm (uniquify sm) atoms

/-- Number of primitives consumed while building one atom's shells: the sum
of the primitive counts of the shells found for its (basis, label) key. -/
def atomConsumed (sm : ShellMap) (basis label : String) : ℕ :=
  ((lookupShells sm basis label).map ECPShellInfo.nprimitive).sum

/-- Size `end - start` of the precomputed unique-primitive range of a
(basis, label) key. -/
def rangeSize (pool : UPool) (basis label : String) : ℤ :=
  (lookupIdx pool.primitive_end basis label : ℤ) -
    (lookupIdx pool.primitive_start basis label : ℤ)

/-! The structured-data (pydict) construction path,
`ECPBasisSet::construct_ecp_from_pydict` (ecp.cc lines 241-308). -/

/-- A primitive triple `[e, c, r]` of the structured ECP input. -/
structure PyPrimitive where
  e : ℚ
  c : ℚ
  r : ℤ
deriving DecidableEq

/-- A shell entry `[angmom, [[e1,c1,r1], ...]]` of the structured ECP
input. -/
structure PyShell where
  am : ℤ
  prims : List PyPrimitive
deriving DecidableEq

/-- A per-atom record of the structured ECP input: atom label, content hash,
core-electron count and the list of shell entries. -/
structure PyAtomInfo where
  atomlabel : String
  hash : String
  ncore : ℤ
  shells : List PyShell
deriving DecidableEq

/-- The pydict argument of construct_ecp_from_pydict. -/
structure PyDict where
  key : String
  name : String
  blend : String
  message : String
  ecp_shell_map : List PyAtomInfo
deriving DecidableEq

/-- Shell-record construction of construct_ecp_from_pydict (ecp.cc lines
264-283): exponents, coefficients and radial powers are read off the
primitive triples, every primitive's sub-angular-momentum label is pushed as
the enclosing shell's angular momentum `am`, and the descriptor is built with
atom index 0, a fake center and start 0. -/
def shellFromPy (si : PyShell) : ECPShellInfo :=
  mkECPShellInfo si.am (si.prims.map PyPrimitive.c) (si.prims.map PyPrimitive.e)
    (si.prims.map PyPrimitive.r) (si.prims.map (fun _ => si.am)) 0 ⟨0, 0, 0⟩ 0

/-- The `vec_shellinfo` list built for one atom entry of the structured
input. -/
def vec_shellinfo (a : PyAtomInfo) : List ECPShellInfo :=
  a.shells.map shellFromPy

/-- Observable side effects of construct_ecp_from_pydict on the molecule. -/
inductive ECPEvent where
  | setBasisAllAtoms (name key : String)
  | setShellByLabel (label hash key : String)
  | updateGeometry
  | setNuclearCharge (atom : ℕ) (newZ : ℤ)
deriving DecidableEq

/-- The molecule state construct_ecp_from_pydict reads and mutates: atom
count, per-atom label, per-atom basis name, per-atom nuclear charge. -/
structure Molecule where
  natom : ℕ
  label : ℕ → String
  basisOnAtom : ℕ → String
  Z : ℕ → ℤ

/-- Molecule::set_basis_all_atoms. -/
def set_basis_all_atoms (mol : Molecule) (name : String) : Molecule :=
  { mol with basisOnAtom := fun _ => name }

/-- Molecule::set_nuclear_charge. -/
def set_nuclear_charge (mol : Molecule) (atom : ℕ) (newZ : ℤ) : Molecule :=
  { mol with Z := fun a => if a = atom then newZ else mol.Z a }

/-- The `basis_atom_ncore[name][atomlabel] = ncore` map built by the
atom-entry loop (ecp.cc line 285), with map-assignment semantics. -/
def basis_atom_ncore (name : String) (infos : List PyAtomInfo) :
    List ((String × String) × ℤ) :=
  infos.foldl (fun m a => ((name, a.atomlabel), a.ncore) :: m) []

/-- Lookup in the ncore map; missing keys default-construct 0 as std::map
operator[] does. -/
def ncoreLookup (m : List ((String × String) × ℤ)) (basis label : String) : ℤ :=
  (m.lookup (basis, label)).getD 0

/-- One iteration of the nuclear-charge adjustment loop (ecp.cc lines
293-300): look up the atom's basis and label, subtract the looked-up core
electron count from its current nuclear charge, and record the mutation. -/
def chargeLoopStep (ncmap : List ((String × String) × ℤ))
    (acc : Molecule × List ECPEvent) (atom : ℕ) : Molecule × List ECPEvent :=
  let mol := acc.1
  let basis := mol.basisOnAtom atom
  let lab := mol.label atom
  let ncore := ncoreLookup ncmap basis lab
  let Znew := mol.Z atom - ncore
  (set_nuclear_charge mol atom Znew, acc.2 ++ [ECPEvent.setNuclearCharge atom Znew])

/-- ECPBasisSet::construct_ecp_from_pydict (ecp.cc lines 241-308): set the
basis on all atoms, fail on an empty ECP shell map, walk the atom entries
building their shell descriptors and registering shells and core counts,
trigger update_geometry, and only then run the nuclear-charge adjustment
loop over all atoms of the molecule.  The final construction of the
ECPBasisSet object from the accumulated shell map carries no further
molecule side effects and is represented by the returned state. -/
def construct_ecp_from_pydict (mol : Molecule) (pybs : PyDict) :
    Except String (Molecule × List ECPEvent) :=
  let mol1 := set_basis_all_atoms mol pybs.name
  let ev1 := [ECPEvent.setBasisAllAtoms pybs.name pybs.key]
  if pybs.ecp_shell_map = [] then
    Except.error "Empty ECP information being used to construct ECPBasisSet."
  else
    let ev2 := ev1 ++ pybs.ecp_shell_map.map
      (fun a => ECPEvent.setShellByLabel a.atomlabel a.hash pybs.key)
    let ncmap := basis_atom_ncore pybs.name pybs.ecp_shell_map
    let ev3 := ev2 ++ [ECPEvent.updateGeometry]
    Except.ok ((List.range mol1.natom).foldl (chargeLoopStep ncmap) (mol1, ev3))

/-- Events of a construction result (empty when construction failed). -/
def eventsOf (res : Except String (Molecule × List ECPEvent)) : List ECPEvent :=
  match res with
  | Except.ok p => p.2
  | Except.error _ => []

/-- Recognizer of nuclear-charge mutation events. -/
def isSetZ : ECPEvent → Bool
  | ECPEvent.setNuclearCharge _ _ => true
  | _ => false

/-- Recognizer of nuclear-charge mutation events of a given atom. -/
def isSetZFor (atom : ℕ) : ECPEvent → Bool
  | ECPEvent.setNuclearCharge a _ => a == atom
  | _ => false

/-- Recognizer of the geometry/symmetry recomputation event. -/
def isUpdateGeometry : ECPEvent → Bool
  | ECPEvent.updateGeometry => true
  | _ => false

/-- The ordering property asserted by the spec: every nuclear-charge
mutation precedes the geometry/symmetry recomputation, i.e. no mutation
event occurs at or after the first updateGeometry event. -/
def chargeMutationsPrecedeUpdate (evs : List ECPEvent) : Prop :=
  (evs.dropWhile (fun e => !isUpdateGeometry e)).countP isSetZ = 0

/-- Concrete one-atom molecule used to exhibit the mutation ordering. -/
def mol0 : Molecule :=
  { natom := 1, label := fun _ => "H", basisOnAtom := fun _ => "", Z := fun _ => 2 }

/-- Concrete structured ECP input with one atom entry and one core
electron. -/
def pybs0 : PyDict :=
  { key := "BASIS", name := "LANL2DZ", blend := "", message := "",
    ecp_shell_map := [{ atomlabel := "H", hash := "h", ncore := 1, shells := [] }] }

/-- Concrete shell entry (angular momentum 0, one primitive) used in the
structured-input witnesses. -/
def pyshell0 : PyShell := { am := 0, prims := [{ e := 1, c := 1, r := 2 }] }

/-- Concrete atom entry used in the structured-input witnesses. -/
def pyatom0 : PyAtomInfo :=
  { atomlabel := "Cu", hash := "", ncore := 10, shells := [pyshell0] }

/-! Theorems. -/

theorem foldl_add_range {M : Type} [AddCommMonoid M] (g : ℕ → M) :
    ∀ (n : ℕ) (v0 : M),
      (List.range n).foldl (fun v m => v + g m) v0 = v0 + ∑ m ∈ Finset.range n, g m := by
  intro n
  induction n with
  | zero => simp
  | succ k ih =>
    intro v0
    rw [List.range_succ, List.foldl_append, ih, Finset.sum_range_succ]
    simp [add_assoc]

theorem foldl_add_range' {M : Type} [AddCommMonoid M] (g : ℕ → M) :
    ∀ (n s : ℕ) (v0 : M),
      (List.range' s n).foldl (fun v m => v + g m) v0 = v0 + ∑ m ∈ Finset.Ico s (s + n), g m := by
  intro n
  induction n with
  | zero => simp
  | succ k ih =>
    intro s v0
    rw [List.range'_1_concat, List.foldl_append, ih]
    simp only [List.foldl_cons, List.foldl_nil]
    rw [Nat.add_succ s k, Finset.sum_Ico_succ_top (by omega : s ≤ s + k)]
    simp [add_assoc]

/-- C4: for every irrep block and all indices i, j, form_D sets `Db[i,j]` to
the sum over the doubly occupied orbitals `m < docc` of `C[i,m]*C[j,m]`, and
`Da[i,j]` to `Db[i,j]` plus the sum over the singly occupied orbitals
`m` in `[docc, docc+socc)` of `C[i,m]*C[j,m]`. -/
theorem form_D_spec (C : Mat) (docc socc : ℕ) (i j : ℕ) :
    ROHF.form_D_Db C docc i j = ∑ m ∈ Finset.range docc, C i m * C j m ∧
    ROHF.form_D_Da C docc socc i j =
      ROHF.form_D_Db C docc i j + ∑ m ∈ Finset.Ico docc (docc + socc), C i m * C j m := by
  constructor
  · unfold ROHF.form_D_Db ROHF.form_D_val
    rw [foldl_add_range]
    simp
  · unfold ROHF.form_D_Da ROHF.form_D_val
    rw [foldl_add_range']

/-- C1 (failing input): form_D leaves `Dt` equal to the beta density (the
second wholesale copy wins), not to `Da + Db`.  With one irrep, one basis
function, `C = [[1]]`, `docc = 1`, `socc = 0`, the code stores `Dt[0,0] = 1`
whereas `Da[0,0] + Db[0,0] = 2`. -/
theorem form_D_Dt_not_sum :
    ROHF.form_D_Dt (fun _ _ => 0) (fun _ _ => 1) 1 0 0 0 = 1 ∧
    ROHF.form_D_Da (fun _ _ => 1) 1 0 0 0 + ROHF.form_D_Db (fun _ _ => 1) 1 0 0 = 2 ∧
    ROHF.form_D_Dt (fun _ _ => 0) (fun _ _ => 1) 1 0 0 0 ≠
      ROHF.form_D_Da (fun _ _ => 1) 1 0 0 0 + ROHF.form_D_Db (fun _ _ => 1) 1 0 0 := by
  have h1 : List.range 1 = [0] := rfl
  have h2 : List.range' 1 0 = [] := rfl
  refine ⟨?_, ?_, ?_⟩ <;>
    norm_num [ROHF.form_D_Dt, ROHF.form_D_Da, ROHF.form_D_Db, ROHF.form_D_val,
      matCopy, h1, h2]

/-- C5: the total energy computed by compute_E equals the nuclear repulsion
energy plus `0.5*(Da·H + Db·H + Da·Fa + Db·Fb)` with `·` the Frobenius dot
product over all matrix elements across all irreps. -/
theorem compute_E_spec (Da Db H Fa Fb : BlockMat) (nuclearrep : ℚ) :
    ROHF.compute_E Da Db H Fa Fb nuclearrep =
      nuclearrep + (1/2) * (vector_dot Da H + vector_dot Db H +
        vector_dot Da Fa + vector_dot Db Fb) := by
  unfold ROHF.compute_E
  ring

/-- C3: the convergence test returns true iff both the absolute energy change
against the saved previous energy is below the energy threshold and the RMS
of the change of the stored total density against the saved previous one is
below the density threshold; if either criterion alone fails the result is
false. -/
theorem test_convergency_spec (Eprev Enew : ℚ) (Dtprev Dtnew : BlockMat)
    (eth dth : ℚ) :
    (ROHF.test_convergency Enew (ROHF.save_density_and_energy Dtprev Eprev).2
        Dtnew (ROHF.save_density_and_energy Dtprev Eprev).1 eth dth ↔
      (|Enew - Eprev| < eth ∧ blockRms (blockSub Dtnew Dtprev) < (dth : ℝ))) ∧
    (¬ |Enew - Eprev| < eth →
      ¬ ROHF.test_convergency Enew (ROHF.save_density_and_energy Dtprev Eprev).2
        Dtnew (ROHF.save_density_and_energy Dtprev Eprev).1 eth dth) ∧
    (¬ blockRms (blockSub Dtnew Dtprev) < (dth : ℝ) →
      ¬ ROHF.test_convergency Enew (ROHF.save_density_and_energy Dtprev Eprev).2
        Dtnew (ROHF.save_density_and_energy Dtprev Eprev).1 eth dth) := by
  have hiff : ROHF.test_convergency Enew (ROHF.save_density_and_energy Dtprev Eprev).2
      Dtnew (ROHF.save_density_and_energy Dtprev Eprev).1 eth dth ↔
      (|Enew - Eprev| < eth ∧ blockRms (blockSub Dtnew Dtprev) < (dth : ℝ)) := by
    unfold ROHF.test_convergency ROHF.save_density_and_energy matCopyB
    constructor
    · rintro ⟨h1, h2⟩
      exact ⟨by exact_mod_cast h1, h2⟩
    · rintro ⟨h1, h2⟩
      exact ⟨by exact_mod_cast h1, h2⟩
  exact ⟨hiff, fun h hc => h (hiff.mp hc).1, fun h hc => h (hiff.mp hc).2⟩

theorem formF_inner_spec (src : Mat) (i : ℕ) :
    ∀ (js : List ℕ), i ∉ js → ∀ (M : Mat) (a b : ℕ),
      ROHF.formF_inner src i js M a b =
        if a = i ∧ b ∈ js then src i b
        else if b = i ∧ a ∈ js then src i a
        else M a b := by
  intro js
  induction js with
  | nil => intro _ M a b; simp [ROHF.formF_inner]
  | cons j rest ih =>
    intro hij M a b
    have hij' : i ∉ rest := fun h => hij (List.mem_cons_of_mem j h)
    have hijne : i ≠ j := by
      intro h
      exact hij (by simp [h])
    show ROHF.formF_inner src i rest (ROHF.formF_setPair src M i j) a b = _
    rw [ih hij']
    simp only [ROHF.formF_setPair, mset, List.mem_cons]
    by_cases hai : a = i <;> by_cases hbi : b = i <;> by_cases haj : a = j <;>
      by_cases hbj : b = j <;> by_cases har : a ∈ rest <;> by_cases hbr : b ∈ rest <;>
      simp_all

theorem formF_step_spec (moFa moFb : Mat) (docc socc nmo : ℕ) (M : Mat) (i : ℕ)
    (hic : i ∉ List.range docc)
    (hiv : i ∉ List.range' (docc + socc) (nmo - (docc + socc))) (a b : ℕ) :
    ROHF.formF_step moFa moFb docc socc nmo M i a b =
      if a = i ∧ b ∈ List.range' (docc + socc) (nmo - (docc + socc)) then moFa i b
      else if b = i ∧ a ∈ List.range' (docc + socc) (nmo - (docc + socc)) then moFa i a
      else if a = i ∧ b ∈ List.range docc then moFb i b
      else if b = i ∧ a ∈ List.range docc then moFb i a
      else M a b := by
  unfold ROHF.formF_step
  rw [formF_inner_spec moFa i _ hiv, formF_inner_spec moFb i _ hic]

theorem formF_loop_spec (moFa moFb : Mat) (docc socc nmo : ℕ)
    (hcv : ∀ x ∈ List.range docc, x ∉ List.range' (docc + socc) (nmo - (docc + socc))) :
    ∀ (is : List ℕ),
      (∀ i ∈ is, i ∉ List.range docc ∧ i ∉ List.range' (docc + socc) (nmo - (docc + socc))) →
      ∀ (M : Mat) (a b : ℕ),
      is.foldl (ROHF.formF_step moFa moFb docc socc nmo) M a b =
        if a ∈ is ∧ b ∈ List.range docc then moFb a b
        else if b ∈ is ∧ a ∈ List.range docc then moFb b a
        else if a ∈ is ∧ b ∈ List.range' (docc + socc) (nmo - (docc + socc)) then moFa a b
        else if b ∈ is ∧ a ∈ List.range' (docc + socc) (nmo - (docc + socc)) then moFa b a
        else M a b := by
  intro is
  induction is with
  | nil => intro _ M a b; simp
  | cons i rest ih =>
    intro his M a b
    have hi := his i (List.mem_cons_self i rest)
    have hrest : ∀ x ∈ rest, x ∉ List.range docc ∧
        x ∉ List.range' (docc + socc) (nmo - (docc + socc)) :=
      fun x hx => his x (List.mem_cons_of_mem i hx)
    show rest.foldl (ROHF.formF_step moFa moFb docc socc nmo)
      (ROHF.formF_step moFa moFb docc socc nmo M i) a b = _
    rw [ih hrest, formF_step_spec moFa moFb docc socc nmo M i hi.1 hi.2 a b]
    simp only [List.mem_cons]
    have hiC : i ∉ List.range docc := hi.1
    have hiV : i ∉ List.range' (docc + socc) (nmo - (docc + socc)) := hi.2
    have haC : a ∈ rest → a ∉ List.range docc := fun h => (hrest a h).1
    have haV : a ∈ rest → a ∉ List.range' (docc + socc) (nmo - (docc + socc)) :=
      fun h => (hrest a h).2
    have hbC : b ∈ rest → b ∉ List.range docc := fun h => (hrest b h).1
    have hbV : b ∈ rest → b ∉ List.range' (docc + socc) (nmo - (docc + socc)) :=
      fun h => (hrest b h).2
    have hcvA : a ∈ List.range docc →
        a ∉ List.range' (docc + socc) (nmo - (docc + socc)) := hcv a
    have hcvB : b ∈ List.range docc →
        b ∉ List.range' (docc + socc) (nmo - (docc + socc)) := hcv b
    clear ih his hrest hcv hi
    split_ifs <;> simp_all <;> omega

/-- C2: for every irrep, the effective Fock matrix produced by form_F equals
`0.5*(moFa+moFb)` (`Fc`) at every entry, except that entries `(i,j)` and
`(j,i)` with `i` open (`docc ≤ i < docc+socc`) and `j` closed (`j < docc`)
equal the beta MO Fock entry `moFb[i,j]`, and entries `(i,j)` and `(j,i)`
with `i` open and `j` virtual (`docc+socc ≤ j < nmo`) equal the alpha MO Fock
entry `moFa[i,j]`. -/
theorem form_F_spec (Feff0 moFa moFb : Mat) (docc socc nmo : ℕ)
    (hn : docc + socc ≤ nmo) (a b : ℕ) (ha : a < nmo) (hb : b < nmo) :
    ROHF.form_F Feff0 moFa moFb docc socc nmo a b =
      if docc ≤ a ∧ a < docc + socc ∧ b < docc then moFb a b
      else if docc ≤ b ∧ b < docc + socc ∧ a < docc then moFb b a
      else if docc ≤ a ∧ a < docc + socc ∧ docc + socc ≤ b then moFa a b
      else if docc ≤ b ∧ b < docc + socc ∧ docc + socc ≤ a then moFa b a
      else (moFa a b + moFb a b) / 2 := by
  have hvtop : docc + socc + (nmo - (docc + socc)) = nmo := by omega
  have hcv : ∀ x ∈ List.range docc,
      x ∉ List.range' (docc + socc) (nmo - (docc + socc)) := by
    intro x hx hx'
    rw [List.mem_range] at hx
    rw [List.mem_range'_1] at hx'
    omega
  have his : ∀ i ∈ List.range' docc socc, i ∉ List.range docc ∧
      i ∉ List.range' (docc + socc) (nmo - (docc + socc)) := by
    intro i hi
    rw [List.mem_range'_1] at hi
    constructor
    · intro h; rw [List.mem_range] at h; omega
    · intro h; rw [List.mem_range'_1] at h; omega
  unfold ROHF.form_F
  rw [formF_loop_spec moFa moFb docc socc nmo hcv (List.range' docc socc) his]
  simp only [List.mem_range'_1, List.mem_range, hvtop, matScale, matAdd, matCopy]
  split_ifs <;> first | rfl | omega | ring

theorem evaluate_eq_sum_filter (s : GaussianECPShell) (r : ℝ) (l : ℤ) :
    s.evaluate r l =
      ∑ i ∈ (Finset.range s.nprimitive_).filter (fun i => s.sub_l_.getD i 0 = l),
        r ^ s.n_.getD i 0 * ((s.original_coef_.getD i 0 : ℚ) : ℝ) *
          Real.exp (-((s.exp_.getD i 0 : ℚ) : ℝ) * (r * r)) := by
  unfold GaussianECPShell.evaluate
  have hstep : (fun (value : ℝ) (i : ℕ) =>
      if s.sub_l_.getD i 0 = l then
        value + r ^ s.n_.getD i 0 * ((s.original_coef_.getD i 0 : ℚ) : ℝ) *
          Real.exp (-((s.exp_.getD i 0 : ℚ) : ℝ) * (r * r))
      else value)
      = fun value i => value +
          (if s.sub_l_.getD i 0 = l then
            r ^ s.n_.getD i 0 * ((s.original_coef_.getD i 0 : ℚ) : ℝ) *
              Real.exp (-((s.exp_.getD i 0 : ℚ) : ℝ) * (r * r))
          else 0) := by
    funext v i
    split_ifs <;> simp
  rw [hstep, foldl_add_range, Finset.sum_filter]
  simp

/-- C9: for every radius r and requested angular momentum l, evaluate
returns the sum of `r^n_i * coef_i * exp(-exponent_i * r^2)` over exactly
those primitives whose stored sub-angular-momentum label equals l;
primitives with a different label contribute nothing. -/
theorem GaussianECPShell_evaluate_spec (s : GaussianECPShell) (r : ℝ) (l : ℤ) :
    s.evaluate r l =
      ∑ i ∈ (Finset.range s.nprimitive_).filter (fun i => s.sub_l_.getD i 0 = l),
        r ^ s.n_.getD i 0 * ((s.original_coef_.getD i 0 : ℚ) : ℝ) *
          Real.exp (-((s.exp_.getD i 0 : ℚ) : ℝ) * (r * r)) :=
  evaluate_eq_sum_filter s r l

/-- C10: every shell record built by the structured-data construction path
labels each primitive with the enclosing shell's angular momentum, so that
evaluate returns 0 at every angular momentum different from the shell's
own. -/
theorem construct_ecp_pydict_sub_l_uniform (a : PyAtomInfo) (s : ECPShellInfo)
    (hs : s ∈ vec_shellinfo a) :
    (∀ x ∈ s.sub_l_, x = s.l_) ∧
    ∀ (r : ℝ) (l : ℤ), l ≠ s.l_ → (toGaussianECPShell s).evaluate r l = 0 := by
  obtain ⟨si, _hsi, rfl⟩ := List.mem_map.mp hs
  have hsub : (shellFromPy si).sub_l_ = si.prims.map (fun _ => si.am) := rfl
  have hl : (shellFromPy si).l_ = si.am := rfl
  constructor
  · intro x hx
    rw [hsub] at hx
    obtain ⟨p, _, rfl⟩ := List.mem_map.mp hx
    rw [hl]
  · intro r l hne
    rw [evaluate_eq_sum_filter]
    have hempty : ((Finset.range (toGaussianECPShell (shellFromPy si)).nprimitive_).filter
        (fun i => (toGaussianECPShell (shellFromPy si)).sub_l_.getD i 0 = l)) = ∅ := by
      rw [Finset.filter_eq_empty_iff]
      intro i hi
      rw [Finset.mem_range] at hi
      have hlen : (toGaussianECPShell (shellFromPy si)).nprimitive_ = si.prims.length := by
        simp [toGaussianECPShell, shellFromPy, mkECPShellInfo, ECPShellInfo.nprimitive]
      rw [hlen] at hi
      have : (toGaussianECPShell (shellFromPy si)).sub_l_.getD i 0 = si.am := by
        show (si.prims.map (fun _ => si.am)).getD i 0 = si.am
        rw [List.getD_eq_getElem?_getD, List.getElem?_map,
          List.getElem?_eq_getElem hi]
        rfl
      rw [this]
      rw [hl] at hne
      exact fun h => hne (h ▸ rfl)
    rw [hempty, Finset.sum_empty]

/-- C8 (failing input): operator== compares the left operand's original
coefficients against the right operand's ERD coefficients, so two identical
descriptors whose ERD coefficient array differs from their original
coefficient array compare unequal, although every corresponding field pair
is equal. -/
theorem ECPShellInfo_opEq_not_field_equality :
    (ECPShellInfo.opEq
      { l_ := 0, puream_ := false, exp_ := [1], coef_ := [1], original_coef_ := [1],
        erd_coef_ := [0], n_ := [0], sub_l_ := [0], nc_ := 0, center_ := ⟨0, 0, 0⟩,
        start_ := 0, ncartesian_ := 1, nfunction_ := 1 }
      { l_ := 0, puream_ := false, exp_ := [1], coef_ := [1], original_coef_ := [1],
        erd_coef_ := [0], n_ := [0], sub_l_ := [0], nc_ := 0, center_ := ⟨0, 0, 0⟩,
        start_ := 0, ncartesian_ := 1, nfunction_ := 1 }) = false := by
  simp [ECPShellInfo.opEq]

theorem buildAtom_fst (pool : UPool) (ustart : ℕ) :
    ∀ (shells : List ECPShellInfo) (acc : ℕ × List GaussianECPShell),
      (shells.foldl (buildAtomStep pool ustart) acc).1 =
        acc.1 + (shells.map ECPShellInfo.nprimitive).sum := by
  intro shells
  induction shells with
  | nil => intro acc; simp
  | cons sh rest ih =>
    intro acc
    simp only [List.foldl_cons, List.map_cons, List.sum_cons]
    rw [ih]
    show acc.1 + sh.nprimitive + _ = _
    omega

theorem assembleAtoms_error_iff (sm : ShellMap) (pool : UPool) :
    ∀ atoms : List (String × String),
      (∃ msg, assembleAtoms sm pool atoms = Except.error msg) ↔
        ∃ p ∈ atoms, (atomConsumed sm p.1 p.2 : ℤ) ≠ rangeSize pool p.1 p.2 := by
  intro atoms
  induction atoms with
  | nil => simp [assembleAtoms]
  | cons atom rest ih =>
    have hfst : (buildAtomShells pool (lookupIdx pool.primitive_start atom.1 atom.2)
        (lookupShells sm atom.1 atom.2)).1 = atomConsumed sm atom.1 atom.2 := by
      unfold buildAtomShells atomConsumed
      rw [buildAtom_fst]
      simp
    by_cases hm : (atomConsumed sm atom.1 atom.2 : ℤ) ≠ rangeSize pool atom.1 atom.2
    · constructor
      · intro _
        exact ⟨atom, List.mem_cons_self _ _, hm⟩
      · intro _
        refine ⟨"Problem with nprimitive in basis set construction!", ?_⟩
        show assembleAtoms sm pool (atom :: rest) = _
        unfold assembleAtoms
        rw [hfst, if_pos]
        exact hm
    · push_neg at hm
      have hcond : ¬ ((buildAtomShells pool (lookupIdx pool.primitive_start atom.1 atom.2)
          (lookupShells sm atom.1 atom.2)).1 : ℤ) ≠
            ((lookupIdx pool.primitive_end atom.1 atom.2 : ℤ) -
              (lookupIdx pool.primitive_start atom.1 atom.2 : ℤ)) := by
        rw [hfst]
        push_neg
        exact hm
      constructor
      · rintro ⟨msg, hmsg⟩
        unfold assembleAtoms at hmsg
        rw [if_neg hcond] at hmsg
        cases hrest : assembleAtoms sm pool rest with
        | ok tail =>
          rw [hrest] at hmsg
          simp at hmsg
        | error e =>
          obtain ⟨p, hp, hpne⟩ := ih.mp ⟨e, hrest⟩
          exact ⟨p, List.mem_cons_of_mem _ hp, hpne⟩
      · rintro ⟨p, hp, hpne⟩
        rcases List.mem_cons.mp hp with rfl | hp'
        · exact absurd hpne (by push_neg; exact hm)
        · obtain ⟨msg, hmsg⟩ := ih.mpr ⟨p, hp', hpne⟩
          refine ⟨msg, ?_⟩
          show assembleAtoms sm pool (atom :: rest) = _
          unfold assembleAtoms
          rw [if_neg hcond, hmsg]

/-- C6: during ECP basis assembly, construction fails with the fatal
primitive-count exception (and returns no basis set) exactly when some
atom's consumed primitive count differs from the size `end - start` of the
precomputed unique-primitive range of its (basis, label) key; when the
counts agree for every atom no such error is raised. -/
theorem ECPBasisSet_construct_error_iff (sm : ShellMap)
    (atoms : List (String × String)) :
    (∃ msg, ECPBasisSet_construct sm atoms = Except.error msg) ↔
      ∃ p ∈ atoms, (atomConsumed sm p.1 p.2 : ℤ) ≠ rangeSize (uniquify sm) p.1 p.2 :=
  assembleAtoms_error_iff sm (uniquify sm) atoms

theorem chargeLoop_spec (ncmap : List ((String × String) × ℤ)) :
    ∀ (l : List ℕ), l.Nodup → ∀ (mol : Molecule) (evs : List ECPEvent),
      ((l.foldl (chargeLoopStep ncmap) (mol, evs)).1.natom = mol.natom ∧
       (l.foldl (chargeLoopStep ncmap) (mol, evs)).1.label = mol.label ∧
       (l.foldl (chargeLoopStep ncmap) (mol, evs)).1.basisOnAtom = mol.basisOnAtom) ∧
      (∀ a, (l.foldl (chargeLoopStep ncmap) (mol, evs)).1.Z a =
        if a ∈ l then mol.Z a - ncoreLookup ncmap (mol.basisOnAtom a) (mol.label a)
        else mol.Z a) ∧
      (l.foldl (chargeLoopStep ncmap) (mol, evs)).2 =
        evs ++ l.map (fun t => ECPEvent.setNuclearCharge t
          (mol.Z t - ncoreLookup ncmap (mol.basisOnAtom t) (mol.label t))) := by
  intro l
  induction l with
  | nil =>
    intro _ mol evs
    exact ⟨⟨rfl, rfl, rfl⟩, fun a => by simp, by simp⟩
  | cons t rest ih =>
    intro hnd mol evs
    have hnd' : rest.Nodup := (List.nodup_cons.mp hnd).2
    have htr : t ∉ rest := (List.nodup_cons.mp hnd).1
    have hstep : chargeLoopStep ncmap (mol, evs) t =
        (set_nuclear_charge mol t
          (mol.Z t - ncoreLookup ncmap (mol.basisOnAtom t) (mol.label t)),
         evs ++ [ECPEvent.setNuclearCharge t
          (mol.Z t - ncoreLookup ncmap (mol.basisOnAtom t) (mol.label t))]) := rfl
    have hml : (set_nuclear_charge mol t
        (mol.Z t - ncoreLookup ncmap (mol.basisOnAtom t) (mol.label t))).label
        = mol.label := rfl
    have hmb : (set_nuclear_charge mol t
        (mol.Z t - ncoreLookup ncmap (mol.basisOnAtom t) (mol.label t))).basisOnAtom
        = mol.basisOnAtom := rfl
    have hmn : (set_nuclear_charge mol t
        (mol.Z t - ncoreLookup ncmap (mol.basisOnAtom t) (mol.label t))).natom
        = mol.natom := rfl
    have hmZ : ∀ a, (set_nuclear_charge mol t
        (mol.Z t - ncoreLookup ncmap (mol.basisOnAtom t) (mol.label t))).Z a =
        if a = t then mol.Z t - ncoreLookup ncmap (mol.basisOnAtom t) (mol.label t)
        else mol.Z a := fun a => rfl
    simp only [List.foldl_cons, hstep]
    obtain ⟨⟨hn, hlab, hbas⟩, hZ, hev⟩ := ih hnd'
      (set_nuclear_charge mol t
        (mol.Z t - ncoreLookup ncmap (mol.basisOnAtom t) (mol.label t)))
      (evs ++ [ECPEvent.setNuclearCharge t
        (mol.Z t - ncoreLookup ncmap (mol.basisOnAtom t) (mol.label t))])
    refine ⟨⟨hn.trans hmn, hlab.trans hml, hbas.trans hmb⟩, ?_, ?_⟩
    · intro a
      rw [hZ a, hmb, hml, hmZ a]
      by_cases har : a ∈ rest
      · have hat : a ≠ t := fun h => htr (h ▸ har)
        simp [har, hat, List.mem_cons]
      · by_cases hat : a = t
        · subst hat
          simp [har, List.mem_cons]
        · simp [har, hat, List.mem_cons]
    · rw [hev, hmb, hml]
      have hmap : rest.map (fun u => ECPEvent.setNuclearCharge u
          ((set_nuclear_charge mol t
            (mol.Z t - ncoreLookup ncmap (mol.basisOnAtom t) (mol.label t))).Z u -
            ncoreLookup ncmap (mol.basisOnAtom u) (mol.label u))) =
          rest.map (fun u => ECPEvent.setNuclearCharge u
            (mol.Z u - ncoreLookup ncmap (mol.basisOnAtom u) (mol.label u))) := by
        apply List.map_congr_left
        intro u hu
        have hut : u ≠ t := fun h => htr (h ▸ hu)
        rw [hmZ u]
        simp [hut]
      rw [hmap]
      simp

/-- C7 (counterexample): on a concrete one-atom molecule with one structured
ECP entry carrying one core electron, the event trace produced by
construct_ecp_from_pydict places updateGeometry strictly before the single
nuclear-charge mutation, so the claim that every mutation happens before the
geometry recomputation is false on the code. -/
theorem construct_ecp_update_before_mutation :
    eventsOf (construct_ecp_from_pydict mol0 pybs0) =
      [ECPEvent.setBasisAllAtoms "LANL2DZ" "BASIS",
       ECPEvent.setShellByLabel "H" "h" "BASIS",
       ECPEvent.updateGeometry,
       ECPEvent.setNuclearCharge 0 1] ∧
    (eventsOf (construct_ecp_from_pydict mol0 pybs0)).countP isSetZ = 1 ∧
    ¬ chargeMutationsPrecedeUpdate (eventsOf (construct_ecp_from_pydict mol0 pybs0)) := by
  refine ⟨by decide, by decide, ?_⟩
  unfold chargeMutationsPrecedeUpdate
  decide

/-- C7 (amended): construct_ecp_from_pydict mutates every atom's nuclear
charge exactly once, to the old charge minus the looked-up core-electron
count, and these mutations happen after the update_geometry trigger (and
before the basis-set object is constructed). -/
theorem construct_ecp_charge_mutation (mol : Molecule) (pybs : PyDict)
    (hne : pybs.ecp_shell_map ≠ []) (a : ℕ) (ha : a < mol.natom) :
    ∃ (mol' : Molecule) (pre post : List ECPEvent),
      construct_ecp_from_pydict mol pybs =
        Except.ok (mol', pre ++ ECPEvent.updateGeometry :: post) ∧
      mol'.Z a = mol.Z a -
        ncoreLookup (basis_atom_ncore pybs.name pybs.ecp_shell_map)
          pybs.name (mol.label a) ∧
      pre.countP isSetZ = 0 ∧
      post.countP (isSetZFor a) = 1 ∧
      (pre ++ ECPEvent.updateGeometry :: post).countP (isSetZFor a) = 1 := by
  obtain ⟨⟨hn, hlab, hbas⟩, hZ, hev⟩ :=
    chargeLoop_spec (basis_atom_ncore pybs.name pybs.ecp_shell_map)
      (List.range (set_basis_all_atoms mol pybs.name).natom) (List.nodup_range _)
      (set_basis_all_atoms mol pybs.name)
      ([ECPEvent.setBasisAllAtoms pybs.name pybs.key] ++
        pybs.ecp_shell_map.map
          (fun x => ECPEvent.setShellByLabel x.atomlabel x.hash pybs.key) ++
        [ECPEvent.updateGeometry])
  have hnat : (set_basis_all_atoms mol pybs.name).natom = mol.natom := rfl
  refine ⟨((List.range (set_basis_all_atoms mol pybs.name).natom).foldl
      (chargeLoopStep (basis_atom_ncore pybs.name pybs.ecp_shell_map))
      (set_basis_all_atoms mol pybs.name,
        [ECPEvent.setBasisAllAtoms pybs.name pybs.key] ++
        pybs.ecp_shell_map.map
          (fun x => ECPEvent.setShellByLabel x.atomlabel x.hash pybs.key) ++
        [ECPEvent.updateGeometry])).1,
    ECPEvent.setBasisAllAtoms pybs.name pybs.key ::
      pybs.ecp_shell_map.map
        (fun x => ECPEvent.setShellByLabel x.atomlabel x.hash pybs.key),
    (List.range mol.natom).map (fun t => ECPEvent.setNuclearCharge t
      (mol.Z t - ncoreLookup (basis_atom_ncore pybs.name pybs.ecp_shell_map)
        pybs.name (mol.label t))),
    ?_, ?_, ?_, ?_, ?_⟩
  · simp only [construct_ecp_from_pydict]
    rw [if_neg hne]
    refine congrArg Except.ok (Prod.ext rfl ?_)
    rw [hev]
    simp [hnat, set_basis_all_atoms]
  · rw [hZ a]
    have hmem : a ∈ List.range (set_basis_all_atoms mol pybs.name).natom := by
      rw [hnat, List.mem_range]
      exact ha
    rw [if_pos hmem]
    rfl
  · rw [List.countP_eq_zero]
    intro e he
    rcases List.mem_cons.mp he with h1 | h2
    · subst h1; simp [isSetZ]
    · obtain ⟨x, _, rfl⟩ := List.mem_map.mp h2
      simp [isSetZ]
  · rw [List.countP_map]
    have hcmp : ((isSetZFor a) ∘ (fun t => ECPEvent.setNuclearCharge t
        (mol.Z t - ncoreLookup (basis_atom_ncore pybs.name pybs.ecp_shell_map)
          pybs.name (mol.label t)))) = (· == a) := by
      funext t
      rfl
    rw [hcmp]
    show List.count a (List.range mol.natom) = 1
    exact List.count_eq_one_of_mem (List.nodup_range _) (List.mem_range.mpr ha)
  · have h0 : (ECPEvent.setBasisAllAtoms pybs.name pybs.key ::
        pybs.ecp_shell_map.map
          (fun x => ECPEvent.setShellByLabel x.atomlabel x.hash pybs.key)).countP
        (isSetZFor a) = 0 := by
      rw [List.countP_eq_zero]
      intro e he
      rcases List.mem_cons.mp he with h1 | h2
      · subst h1; simp [isSetZFor]
      · obtain ⟨x, _, rfl⟩ := List.mem_map.mp h2
        simp [isSetZFor]
    have h1 : (ECPEvent.updateGeometry :: (List.range mol.natom).map
        (fun t => ECPEvent.setNuclearCharge t
          (mol.Z t - ncoreLookup (basis_atom_ncore pybs.name pybs.ecp_shell_map)
            pybs.name (mol.label t)))).countP (isSetZFor a) = 1 := by
      rw [List.countP_cons]
      have hug : isSetZFor a ECPEvent.updateGeometry = false := rfl
      rw [hug]
      simp only [Bool.false_eq_true, if_false, add_zero]
      rw [List.countP_map]
      have hcmp : ((isSetZFor a) ∘ (fun t => ECPEvent.setNuclearCharge t
          (mol.Z t - ncoreLookup (basis_atom_ncore pybs.name pybs.ecp_shell_map)
            pybs.name (mol.label t)))) = (· == a) := by
        funext t
        rfl
      rw [hcmp]
      show List.count a (List.range mol.natom) = 1
      exact List.count_eq_one_of_mem (List.nodup_range _) (List.mem_range.mpr ha)
    rw [List.countP_append, h0, h1]

/-- Witness for form_F_spec: a concrete 3-orbital irrep block with one
closed, one open and one virtual orbital; the open/closed entry (1,0) takes
the beta MO Fock value. -/
theorem form_F_spec_witness :
    (1 + 1 ≤ 3 ∧ (1 : ℕ) < 3 ∧ (0 : ℕ) < 3) ∧
    ROHF.form_F (fun _ _ => 0) (fun i j => ((i * 3 + j : ℕ) : ℚ))
      (fun i j => ((10 * (i * 3 + j) : ℕ) : ℚ)) 1 1 3 1 0 = 30 := by
  refine ⟨⟨by norm_num, by norm_num, by norm_num⟩, ?_⟩
  rw [form_F_spec (fun _ _ => 0) _ _ 1 1 3 (by norm_num) 1 0 (by norm_num) (by norm_num)]
  norm_num

/-- Witness for construct_ecp_pydict_sub_l_uniform: a concrete one-shell
atom entry with angular momentum 0; evaluating at l = 1 gives 0. -/
theorem construct_ecp_pydict_sub_l_uniform_witness :
    (shellFromPy pyshell0 ∈ vec_shellinfo pyatom0) ∧
    ((1 : ℤ) ≠ (shellFromPy pyshell0).l_) ∧
    (toGaussianECPShell (shellFromPy pyshell0)).evaluate 2 1 = 0 := by
  have hmem : shellFromPy pyshell0 ∈ vec_shellinfo pyatom0 := by
    simp [vec_shellinfo, pyatom0]
  have hl : (1 : ℤ) ≠ (shellFromPy pyshell0).l_ := by
    simp [shellFromPy, mkECPShellInfo, pyshell0]
  exact ⟨hmem, hl, (construct_ecp_pydict_sub_l_uniform _ _ hmem).2 2 1 hl⟩

/-- Witness for construct_ecp_charge_mutation at the concrete one-atom
molecule and one-entry structured input. -/
theorem construct_ecp_charge_mutation_witness :
    pybs0.ecp_shell_map ≠ [] ∧ 0 < mol0.natom ∧
    (∃ (mol' : Molecule) (pre post : List ECPEvent),
      construct_ecp_from_pydict mol0 pybs0 =
        Except.ok (mol', pre ++ ECPEvent.updateGeometry :: post) ∧
      mol'.Z 0 = mol0.Z 0 -
        ncoreLookup (basis_atom_ncore pybs0.name pybs0.ecp_shell_map)
          pybs0.name (mol0.label 0) ∧
      pre.countP isSetZ = 0 ∧
      post.countP (isSetZFor 0) = 1 ∧
      (pre ++ ECPEvent.updateGeometry :: post).countP (isSetZFor 0) = 1) :=
  ⟨by decide, by decide, construct_ecp_charge_mutation mol0 pybs0 (by decide) 0 (by decide)⟩

end Psi4
